import Mathlib

/-!
Shallow embedding of the scene-reconciliation core of `src/rendering/Scene.cc`
(gazebo).  The embedded fragment covers the message mailboxes
(`visualMsgs`, `lightMsgs`, `poseMsgs`, `selectionMsg`), the entity maps
(`visuals`, `lights`), the receive entry points
(`ReceiveVisualMsg`, `ReceiveLightMsg`, `ReceivePoseMsg`, `ReceiveSceneMsg`,
`OnSelectionMsg`) and the per-cycle consumer `PreRender` with its helpers
`ProcessVisualMsg` and `ProcessLightMsg`.

`std::map<std::string, T*>` is embedded as an association list
`List (String × T)` with `mlookup` / `minsert` / `merase` giving the
`find` / `operator[]=` / `erase` semantics; well-formed states have no
duplicate keys (`wfMap`), which every map operation preserves.
Opaque message payloads (mesh/material attributes, light parameters) and
poses are embedded as `Nat` values; the code treats them as opaque and
only moves them around.
-/

namespace Gazebo

/-- A pose value; `msgs::Pose` payloads and `Visual` poses are opaque to the
reconciliation logic, so they are embedded as a plain number. -/
abbrev Pose := Nat

/-- The `msgs::Visual::Action` enum; `ProcessVisualMsg` only ever tests for
`DELETE`. -/
inductive VisualAction where
  | DELETE
  | UPDATE
deriving DecidableEq, Repr

/-- A `msgs::Visual` message: `header().str_id()`, optional `parent_id()`,
optional `action()`, and the remaining renderable attributes as an opaque
payload. -/
structure VisualMsg where
  id : String
  parentId : Option String
  action : Option VisualAction
  payload : Nat
deriving DecidableEq, Repr

/-- A `msgs::Light` message: `header().str_id()` plus opaque light
parameters. -/
structure LightMsg where
  id : String
  payload : Nat
deriving DecidableEq, Repr

/-- A `msgs::Pose` message: `header().str_id()` plus the pose value. -/
structure PoseMsg where
  id : String
  pose : Pose
deriving DecidableEq, Repr

/-- A `msgs::Selection` message: the identifier of the entity to select. -/
structure SelectionMsg where
  id : String
deriving DecidableEq, Repr

/-- A `msgs::Scene` message: embedded visual, pose and light entries plus an
optional ambient color (`has_ambient()`). -/
structure SceneMsg where
  visuals : List VisualMsg
  poses : List PoseMsg
  lights : List LightMsg
  ambient : Option Nat
deriving DecidableEq, Repr

/-- A `Visual` entity owned by the scene: identifier, the parent it was
attached to at creation (`none` is the scene root), current pose, and its
renderable attributes as an opaque payload. -/
structure Visual where
  id : String
  parent : Option String
  pose : Pose
  payload : Nat
deriving DecidableEq, Repr

/-- A `Light` entity owned by the scene: its parameters as an opaque
payload. -/
structure Light where
  payload : Nat
deriving DecidableEq, Repr

/-- Embedding of `map.find(k)`: first binding of `k`, if any. -/
def mlookup {α : Type} : List (String × α) → String → Option α
  | [], _ => none
  | (k, v) :: rest, id => if k = id then some v else mlookup rest id

/-- Embedding of `map[k] = v`: replace the binding of `k` in place if present, otherwise
append a new binding. -/
def minsert {α : Type} : List (String × α) → String → α → List (String × α)
  | [], id, v => [(id, v)]
  | (k, w) :: rest, id, v =>
      if k = id then (id, v) :: rest else (k, w) :: minsert rest id v

/-- Embedding of `map.erase(iter)` for `iter = map.find(k)`: drop the first binding of
`k`; a no-op when `k` is absent. -/
def merase {α : Type} : List (String × α) → String → List (String × α)
  | [], _ => []
  | (k, w) :: rest, id => if k = id then rest else (k, w) :: merase rest id

/-- A well-formed embedded `std::map`: no duplicate keys. -/
def wfMap {α : Type} (m : List (String × α)) : Prop :=
  (m.map Prod.fst).Nodup

/-- The reconciliation-relevant state of `rendering::Scene`: the four
message mailboxes guarded by `receiveMutex`, the two entity registries, the
attachment target of `selectionObj` and the ambient color. -/
structure Scene where
  visualMsgs : List VisualMsg
  lightMsgs : List LightMsg
  poseMsgs : List PoseMsg
  selectionMsg : Option SelectionMsg
  visuals : List (String × Visual)
  lights : List (String × Light)
  selection : Option String
  ambient : Option Nat
deriving DecidableEq, Repr

/-- A freshly constructed scene: empty mailboxes and registries. -/
def Scene.init : Scene :=
  { visualMsgs := [], lightMsgs := [], poseMsgs := [], selectionMsg := none,
    visuals := [], lights := [], selection := none, ambient := none }

/-- Embedding of `Scene::ReceiveVisualMsg`: append the message to the visual mailbox
(under `receiveMutex`). -/
def Scene.ReceiveVisualMsg (s : Scene) (m : VisualMsg) : Scene :=
  { s with visualMsgs := s.visualMsgs ++ [m] }

/-- Embedding of `Scene::ReceiveLightMsg`: append the message to the light mailbox
(under `receiveMutex`). -/
def Scene.ReceiveLightMsg (s : Scene) (m : LightMsg) : Scene :=
  { s with lightMsgs := s.lightMsgs ++ [m] }

/-- The dedup scan in `Scene::ReceivePoseMsg`: erase the first queued pose
message with the given identifier, then stop (the loop breaks after one
erase). -/
def eraseFirstPose (id : String) : List PoseMsg → List PoseMsg
  | [] => []
  | m :: rest => if m.id = id then rest else m :: eraseFirstPose id rest

/-- Embedding of `Scene::ReceivePoseMsg`: remove the first older pose message with the
same identifier, then append the new one (under `receiveMutex`). -/
def Scene.ReceivePoseMsg (s : Scene) (m : PoseMsg) : Scene :=
  { s with poseMsgs := eraseFirstPose m.id s.poseMsgs ++ [m] }

/-- Embedding of `Scene::ReceiveSceneMsg`: append every embedded visual, pose and light
entry to the corresponding mailbox verbatim (no dedup scan), and take the
ambient color when present (under `receiveMutex`). -/
def Scene.ReceiveSceneMsg (s : Scene) (sm : SceneMsg) : Scene :=
  { s with visualMsgs := s.visualMsgs ++ sm.visuals,
           poseMsgs := s.poseMsgs ++ sm.poses,
           lightMsgs := s.lightMsgs ++ sm.lights,
           ambient := match sm.ambient with
                      | some c => some c
                      | none => s.ambient }

/-- Embedding of `Scene::OnSelectionMsg`: overwrite the single pending selection message
(last writer wins, not queued). -/
def Scene.OnSelectionMsg (s : Scene) (m : SelectionMsg) : Scene :=
  { s with selectionMsg := some m }

/-- Modelled from the spec: `Visual::LoadFromMsg` is not among the source
files; per the Entity Registry contract a creation stores the message's
attribute payload and the pose is left untouched (pose arrives via a
separate channel). -/
def loadFromMsg (v : Visual) (m : VisualMsg) : Visual :=
  { v with payload := m.payload }

/-- Modelled from the spec: `Visual::UpdateFromMsg` is not among the source
files; per the Entity Registry contract an update merges the message's
attribute payload into the existing entity and leaves the pose untouched. -/
def updateFromMsg (v : Visual) (m : VisualMsg) : Visual :=
  { v with payload := m.payload }

/-- Embedding of `Scene::ProcessVisualMsg`: a DELETE-action message erases the entity if
present (no-op otherwise); otherwise a message for a known identifier
updates it in place, and a message for an unknown identifier creates a new
`Visual` attached to its parent when the parent resolves, else to the scene
root, and stores it in the registry. -/
def processVisualMsg (vm : List (String × Visual)) (m : VisualMsg) :
    List (String × Visual) :=
  if m.action = some VisualAction.DELETE then
    merase vm m.id
  else
    match mlookup vm m.id with
    | some v => minsert vm m.id (updateFromMsg v m)
    | none =>
        let parent : Option String :=
          match m.parentId with
          | some pid => if (mlookup vm pid).isSome then some pid else none
          | none => none
        minsert vm m.id (loadFromMsg ⟨m.id, parent, 0, 0⟩ m)

/-- Modelled from the spec: `Light::LoadFromMsg` is not among the source
files; a new light stores the message's opaque parameter payload. -/
def Light.loadFromMsg (m : LightMsg) : Light :=
  ⟨m.payload⟩

/-- Embedding of `Scene::ProcessLightMsg`: create and register a new `Light` when the
identifier is unknown; a message for a known identifier falls through and
leaves the registry unchanged. -/
def processLightMsg (lm : List (String × Light)) (m : LightMsg) :
    List (String × Light) :=
  match mlookup lm m.id with
  | some _ => lm
  | none => minsert lm m.id (Light.loadFromMsg m)

/-- One iteration of the pose loop in `Scene::PreRender`: if the target
visual exists, `SetPose` it and erase the message from the list; otherwise
keep the message pending. -/
def poseStep (acc : List (String × Visual) × List PoseMsg) (m : PoseMsg) :
    List (String × Visual) × List PoseMsg :=
  match mlookup acc.1 m.id with
  | some v => (minsert acc.1 m.id { v with pose := m.pose }, acc.2)
  | none => (acc.1, acc.2 ++ [m])

/-- Embedding of `Scene::PreRender` (all of it under `receiveMutex`): process every
queued visual message and clear that mailbox, then every light message and
clear that mailbox, then walk the pose messages applying and erasing those
whose visual now exists, and finally resolve the pending selection message
against the visual registry — attaching `selectionObj` to the found visual
or to nothing — and reset it.  The attachment target of `selectionObj` is
modelled from the spec as the selected identifier, `SelectionObj` itself
not being among the source files. -/
def Scene.PreRender (s : Scene) : Scene :=
  let visuals1 := s.visualMsgs.foldl processVisualMsg s.visuals
  let lights1 := s.lightMsgs.foldl processLightMsg s.lights
  let pr := s.poseMsgs.foldl poseStep (visuals1, [])
  let sel :=
    match s.selectionMsg with
    | some m => if (mlookup pr.1 m.id).isSome then some m.id else none
    | none => s.selection
  { s with visualMsgs := [], lightMsgs := [], poseMsgs := pr.2,
           selectionMsg := none, visuals := pr.1, lights := lights1,
           selection := sel }

/-- The visual registry as it stands after step 1 of a cycle (the visual
batch applied, before the pose loop runs). -/
def visualsAfterMsgs (s : Scene) : List (String × Visual) :=
  s.visualMsgs.foldl processVisualMsg s.visuals

/-- The last pose value queued for `X`, scanning the pose mailbox front to
back (the value the pose loop would leave on `X`'s visual). -/
def lastPoseMsg (ms : List PoseMsg) (X : String) : Option Pose :=
  ms.foldl (fun acc m => if m.id = X then some m.pose else acc) none

/-- The pose left on `X`'s visual by folding the message list over a visual
whose pose is currently `d`: the last queued pose for `X`, defaulting to
`d`. -/
def lastFrom (d : Pose) (ms : List PoseMsg) (X : String) : Pose :=
  ms.foldl (fun acc m => if m.id = X then m.pose else acc) d

/-- Step 1 of `Scene::PreRender` in isolation: apply and clear the visual
mailbox. -/
def visualPhase (s : Scene) : Scene :=
  { s with visuals := s.visualMsgs.foldl processVisualMsg s.visuals,
           visualMsgs := [] }

/-- Step 2 of `Scene::PreRender` in isolation: apply and clear the light
mailbox. -/
def lightPhase (s : Scene) : Scene :=
  { s with lights := s.lightMsgs.foldl processLightMsg s.lights,
           lightMsgs := [] }

/-- Step 3 of `Scene::PreRender` in isolation: the pose loop over the
current visual registry. -/
def posePhase (s : Scene) : Scene :=
  let pr := s.poseMsgs.foldl poseStep (s.visuals, [])
  { s with visuals := pr.1, poseMsgs := pr.2 }

/-- Step 4 of `Scene::PreRender` in isolation: resolve and reset the
pending selection message. -/
def selectionPhase (s : Scene) : Scene :=
  let sel :=
    match s.selectionMsg with
    | some m => if (mlookup s.visuals m.id).isSome then some m.id else none
    | none => s.selection
  { s with selection := sel, selectionMsg := none }

/-- The inbound receive entry points of the scene, as the operations
producer threads may perform between cycles. -/
inductive ReceiveOp where
  | visual (m : VisualMsg)
  | light (m : LightMsg)
  | pose (m : PoseMsg)
  | select (m : SelectionMsg)
  | scene (m : SceneMsg)
deriving DecidableEq, Repr

/-- Dispatch one receive operation to the matching entry point. -/
def applyReceiveOp (s : Scene) : ReceiveOp → Scene
  | ReceiveOp.visual m => s.ReceiveVisualMsg m
  | ReceiveOp.light m => s.ReceiveLightMsg m
  | ReceiveOp.pose m => s.ReceivePoseMsg m
  | ReceiveOp.select m => s.OnSelectionMsg m
  | ReceiveOp.scene m => s.ReceiveSceneMsg m

/-- Whether a receive operation is a scene-message delivery. -/
def ReceiveOp.isScene : ReceiveOp → Bool
  | ReceiveOp.scene _ => true
  | _ => false

/-- The pending-pose buffer holds at most one message per identifier. -/
def atMostOnePendingPose (l : List PoseMsg) : Prop :=
  ∀ X, (l.filter (fun m => m.id == X)).length ≤ 1

/-- The mutex and message-application events of a `PreRender` call, in
program order. -/
inductive SceneEvent where
  | lockReceiveMutex
  | unlockReceiveMutex
  | applyVisual
  | applyLight
  | applyPose
  | applySelect
deriving DecidableEq, Repr

/-- Whether an event applies a message against the registries. -/
def SceneEvent.isApply : SceneEvent → Bool
  | SceneEvent.applyVisual => true
  | SceneEvent.applyLight => true
  | SceneEvent.applyPose => true
  | SceneEvent.applySelect => true
  | _ => false

/-- Whether an event acquires `receiveMutex`. -/
def SceneEvent.isLock : SceneEvent → Bool
  | SceneEvent.lockReceiveMutex => true
  | _ => false

/-- Whether an event releases `receiveMutex`. -/
def SceneEvent.isUnlock : SceneEvent → Bool
  | SceneEvent.unlockReceiveMutex => true
  | _ => false

/-- The application events of one `Scene::PreRender` call: one
`ProcessVisualMsg` call per queued visual message, one `ProcessLightMsg`
call per queued light message, one `SetPose` call per pose message whose
visual exists after the visual batch, and one `Attach` call when a
selection message is pending. -/
def preRenderBody (s : Scene) : List SceneEvent :=
  s.visualMsgs.map (fun _ => SceneEvent.applyVisual)
  ++ s.lightMsgs.map (fun _ => SceneEvent.applyLight)
  ++ (s.poseMsgs.filter
      (fun m => (mlookup (visualsAfterMsgs s) m.id).isSome)).map
      (fun _ => SceneEvent.applyPose)
  ++ (match s.selectionMsg with
      | some _ => [SceneEvent.applySelect]
      | none => [])

/-- The event trace of one `Scene::PreRender` call: the `scoped_lock` on
`receiveMutex` is taken on entry, before any message is processed, and
released only on return. -/
def preRenderEvents (s : Scene) : List SceneEvent :=
  SceneEvent.lockReceiveMutex ::
    (preRenderBody s ++ [SceneEvent.unlockReceiveMutex])

/-- Number of `receiveMutex` acquisitions minus releases among the first
`i` events: the lock depth at which event `i` runs. -/
def lockDepthBefore (tr : List SceneEvent) (i : Nat) : Int :=
  (((tr.take i).countP SceneEvent.isLock : Nat) : Int)
    - (((tr.take i).countP SceneEvent.isUnlock : Nat) : Int)

/-! ### Association-map lemmas -/

theorem mlookup_minsert {α : Type} (m : List (String × α)) (k k' : String)
    (v : α) :
    mlookup (minsert m k v) k' = if k' = k then some v else mlookup m k' := by
  induction m with
  | nil =>
    by_cases h : k' = k
    · simp [minsert, mlookup, h]
    · simp [minsert, mlookup, h, Ne.symm h]
  | cons hd tl ih =>
    obtain ⟨k0, w⟩ := hd
    by_cases h0 : k0 = k
    · subst h0
      by_cases h : k' = k0
      · simp [minsert, mlookup, h]
      · simp [minsert, mlookup, h, Ne.symm h]
    · by_cases h : k' = k0
      · subst h
        simp [minsert, mlookup, h0, Ne.symm h0]
      · simp [minsert, mlookup, h0, h, Ne.symm h, ih]

theorem mlookup_isNone_minsert_of_mem {α : Type} (m : List (String × α))
    (k k' : String) (v : α) (hmem : (mlookup m k).isSome) :
    (mlookup (minsert m k v) k').isNone = (mlookup m k').isNone := by
  rw [mlookup_minsert]
  by_cases h : k' = k
  · subst h
    cases hv : mlookup m k' with
    | none => rw [hv] at hmem; simp [Option.isSome] at hmem
    | some w => simp
  · simp [h]

theorem mlookup_eq_none_of_not_mem {α : Type} (m : List (String × α))
    (k : String) (h : k ∉ m.map Prod.fst) : mlookup m k = none := by
  induction m with
  | nil => rfl
  | cons hd tl ih =>
    obtain ⟨k0, w⟩ := hd
    simp only [List.map_cons, List.mem_cons] at h
    push_neg at h
    simp [mlookup, Ne.symm h.1, ih h.2]

theorem mlookup_merase_self {α : Type} (m : List (String × α)) (k : String)
    (hwf : wfMap m) : mlookup (merase m k) k = none := by
  induction m with
  | nil => rfl
  | cons hd tl ih =>
    obtain ⟨k0, w⟩ := hd
    rw [wfMap, List.map_cons, List.nodup_cons] at hwf
    by_cases h : k0 = k
    · subst h
      simpa [merase] using mlookup_eq_none_of_not_mem tl k0 hwf.1
    · simp [merase, mlookup, h, Ne.symm h, ih hwf.2]

theorem merase_of_not_found {α : Type} (m : List (String × α)) (k : String)
    (h : mlookup m k = none) : merase m k = m := by
  induction m with
  | nil => rfl
  | cons hd tl ih =>
    obtain ⟨k0, w⟩ := hd
    by_cases h0 : k0 = k
    · subst h0
      simp [mlookup] at h
    · simp only [mlookup, if_neg h0] at h
      simp [merase, h0, ih h]

theorem mlookup_isSome_of_mem {α : Type} (m : List (String × α))
    (k : String) (h : k ∈ m.map Prod.fst) : (mlookup m k).isSome := by
  induction m with
  | nil => simp at h
  | cons hd tl ih =>
    obtain ⟨k0, w⟩ := hd
    by_cases h0 : k0 = k
    · simp [mlookup, h0]
    · simp only [List.map_cons, List.mem_cons] at h
      rcases h with h | h

      · exact absurd h.symm h0
      · simp [mlookup, h0, ih h]

theorem minsert_keys_of_found {α : Type} (m : List (String × α))
    (k : String) (v : α) (h : (mlookup m k).isSome) :
    (minsert m k v).map Prod.fst = m.map Prod.fst := by
  induction m with
  | nil => simp [mlookup, Option.isSome] at h
  | cons hd tl ih =>
    obtain ⟨k0, w⟩ := hd
    by_cases h0 : k0 = k
    · simp [minsert, h0]
    · simp only [mlookup, if_neg h0] at h
      simp [minsert, h0, ih h]

theorem minsert_keys_of_not_found {α : Type} (m : List (String × α))
    (k : String) (v : α) (h : mlookup m k = none) :
    (minsert m k v).map Prod.fst = m.map Prod.fst ++ [k] := by
  induction m with
  | nil => simp [minsert]
  | cons hd tl ih =>
    obtain ⟨k0, w⟩ := hd
    by_cases h0 : k0 = k
    · simp [mlookup, h0] at h
    · simp only [mlookup, if_neg h0] at h
      simp [minsert, h0, ih h]

theorem wfMap_minsert {α : Type} (m : List (String × α)) (k : String)
    (v : α) (hwf : wfMap m) : wfMap (minsert m k v) := by
  rw [wfMap]
  cases h : mlookup m k with
  | some w =>
    rw [minsert_keys_of_found m k v (by rw [h]; rfl)]
    exact hwf
  | none =>
    rw [minsert_keys_of_not_found m k v h]
    have hnotmem : k ∉ m.map Prod.fst := by
      intro hmem
      have := mlookup_isSome_of_mem m k hmem
      rw [h] at this
      simp [Option.isSome] at this
    rw [List.nodup_append_comm]
    exact List.nodup_cons.mpr ⟨hnotmem, hwf⟩

theorem merase_sublist {α : Type} (m : List (String × α)) (k : String) :
    List.Sublist (merase m k) m := by
  induction m with
  | nil => simp [merase]
  | cons hd tl ih =>
    obtain ⟨k0, w⟩ := hd
    by_cases h0 : k0 = k
    · simp only [merase, if_pos h0]
      exact List.sublist_cons_self (k0, w) tl
    · simpa [merase, h0] using List.Sublist.cons₂ (k0, w) ih

theorem wfMap_merase {α : Type} (m : List (String × α)) (k : String)
    (hwf : wfMap m) : wfMap (merase m k) :=
  List.Nodup.sublist (List.Sublist.map Prod.fst (merase_sublist m k)) hwf

/-! ### Pose-loop lemmas -/

theorem poseFold_lookup_isNone (ms : List PoseMsg)
    (vm : List (String × Visual)) (kept : List PoseMsg) (k : String) :
    (mlookup (ms.foldl poseStep (vm, kept)).1 k).isNone
      = (mlookup vm k).isNone := by
  induction ms generalizing vm kept with
  | nil => rfl
  | cons m ms ih =>
    cases h : mlookup vm m.id with
    | some v =>
      rw [List.foldl_cons]
      show (mlookup (ms.foldl poseStep (poseStep (vm, kept) m)).1 k).isNone
        = (mlookup vm k).isNone
      rw [show poseStep (vm, kept) m
            = (minsert vm m.id { v with pose := m.pose }, kept) by
          simp [poseStep, h]]
      rw [ih]
      exact mlookup_isNone_minsert_of_mem vm m.id k _ (by rw [h]; rfl)
    | none =>
      rw [List.foldl_cons]
      rw [show poseStep (vm, kept) m = (vm, kept ++ [m]) by
          simp [poseStep, h]]
      exact ih vm (kept ++ [m])

theorem poseFold_lookup_isSome (ms : List PoseMsg)
    (vm : List (String × Visual)) (kept : List PoseMsg) (k : String) :
    (mlookup (ms.foldl poseStep (vm, kept)).1 k).isSome
      = (mlookup vm k).isSome := by
  have h := poseFold_lookup_isNone ms vm kept k
  cases h1 : mlookup (ms.foldl poseStep (vm, kept)).1 k <;>
    cases h2 : mlookup vm k <;> rw [h1, h2] at h <;> simp_all

theorem poseFold_kept (ms : List PoseMsg) (vm : List (String × Visual))
    (kept : List PoseMsg) :
    (ms.foldl poseStep (vm, kept)).2
      = kept ++ ms.filter (fun m => (mlookup vm m.id).isNone) := by
  induction ms generalizing vm kept with
  | nil => simp
  | cons m ms ih =>
    cases h : mlookup vm m.id with
    | some v =>
      rw [List.foldl_cons]
      rw [show poseStep (vm, kept) m
            = (minsert vm m.id { v with pose := m.pose }, kept) by
          simp [poseStep, h]]
      rw [ih]
      have hfst : (fun (m2 : PoseMsg) =>
          (mlookup (minsert vm m.id { v with pose := m.pose }) m2.id).isNone)
            = fun m2 => (mlookup vm m2.id).isNone := by
        funext m2
        exact mlookup_isNone_minsert_of_mem vm m.id m2.id _ (by rw [h]; rfl)
      rw [hfst]
      have : (mlookup vm m.id).isNone = false := by rw [h]; rfl
      simp [List.filter_cons, this]
    | none =>
      rw [List.foldl_cons]
      rw [show poseStep (vm, kept) m = (vm, kept ++ [m]) by
          simp [poseStep, h]]
      rw [ih]
      have : (mlookup vm m.id).isNone = true := by rw [h]; rfl
      simp [List.filter_cons, this]

theorem poseFold_lookup_found (ms : List PoseMsg)
    (vm : List (String × Visual)) (kept : List PoseMsg) (X : String)
    (v0 : Visual) (h : mlookup vm X = some v0) :
    mlookup (ms.foldl poseStep (vm, kept)).1 X
      = some { v0 with pose := lastFrom v0.pose ms X } := by
  induction ms generalizing vm kept v0 with
  | nil =>
    simp [lastFrom, h]
  | cons m ms ih =>
    by_cases hm : m.id = X
    · have hlk : mlookup vm m.id = some v0 := by rw [hm]; exact h
      rw [List.foldl_cons]
      rw [show poseStep (vm, kept) m
            = (minsert vm m.id { v0 with pose := m.pose }, kept) by
          simp [poseStep, hlk]]
      have h2 : mlookup (minsert vm m.id { v0 with pose := m.pose }) X
          = some { v0 with pose := m.pose } := by
        rw [mlookup_minsert, if_pos hm.symm]
      rw [ih _ _ _ h2]
      simp [lastFrom, hm]
    · rw [List.foldl_cons]
      cases hlk : mlookup vm m.id with
      | some v =>
        rw [show poseStep (vm, kept) m
              = (minsert vm m.id { v with pose := m.pose }, kept) by
            simp [poseStep, hlk]]
        have h2 : mlookup (minsert vm m.id { v with pose := m.pose }) X
            = some v0 := by
          rw [mlookup_minsert, if_neg (fun hx => hm hx.symm)]
          exact h
        rw [ih _ _ _ h2]
        simp [lastFrom, hm]
      | none =>
        rw [show poseStep (vm, kept) m = (vm, kept ++ [m]) by
            simp [poseStep, hlk]]
        rw [ih _ _ _ h]
        simp [lastFrom, hm]

theorem lastFrom_of_lastPoseMsg (ms : List PoseMsg) (X : String) (P : Pose)
    (h : lastPoseMsg ms X = some P) (d : Pose) : lastFrom d ms X = P := by
  induction ms generalizing d with
  | nil => simp [lastPoseMsg] at h
  | cons m ms ih =>
    by_cases hm : m.id = X
    · have hsome : ∀ e : Pose, ∀ ns : List PoseMsg,
          ns.foldl (fun acc m2 => if m2.id = X then some m2.pose else acc)
            (some e) = some (lastFrom e ns X) := by
        intro e ns
        induction ns generalizing e with
        | nil => rfl
        | cons n ns ihn =>
          by_cases hn : n.id = X
          · simp only [List.foldl_cons, if_pos hn, lastFrom]
            simpa [lastFrom] using ihn n.pose
          · simp only [List.foldl_cons, if_neg hn, lastFrom]
            simpa [lastFrom] using ihn e
      rw [lastPoseMsg, List.foldl_cons, if_pos hm, hsome m.pose ms] at h
      rw [lastFrom, List.foldl_cons, if_pos hm]
      exact (Option.some_inj.mp h : lastFrom m.pose ms X = P)
    · rw [lastPoseMsg, List.foldl_cons, if_neg hm] at h
      rw [lastFrom, List.foldl_cons, if_neg hm]
      exact ih h d

theorem lastPoseMsg_filter (ms : List PoseMsg) (X : String)
    (p : PoseMsg → Bool) (hp : ∀ m, m.id = X → p m = true) :
    lastPoseMsg (ms.filter p) X = lastPoseMsg ms X := by
  have key : ∀ acc : Option Pose,
      (ms.filter p).foldl
          (fun a m => if m.id = X then some m.pose else a) acc
        = ms.foldl (fun a m => if m.id = X then some m.pose else a) acc := by
    induction ms with
    | nil => intro acc; rfl
    | cons m ms ih =>
      intro acc
      cases hpm : p m with
      | true => simp [List.filter_cons, hpm, ih]
      | false =>
        have hmX : m.id ≠ X := fun hx => by rw [hp m hx] at hpm; cases hpm
        simp [List.filter_cons, hpm, if_neg hmX, ih]
  exact key none

theorem lastPoseMsg_append_single (ms : List PoseMsg) (m : PoseMsg)
    (X : String) :
    lastPoseMsg (ms ++ [m]) X
      = if m.id = X then some m.pose else lastPoseMsg ms X := by
  by_cases hm : m.id = X <;> simp [lastPoseMsg, hm]

/-! ### Cycle helpers -/

theorem preRender_poseMsgs_eq (s : Scene) :
    s.PreRender.poseMsgs
      = (s.poseMsgs.foldl poseStep (visualsAfterMsgs s, [])).2 := rfl

theorem preRender_visuals_eq (s : Scene) :
    s.PreRender.visuals
      = (s.poseMsgs.foldl poseStep (visualsAfterMsgs s, [])).1 := rfl

theorem preRender_visual_pose (s : Scene) (X : String) (P : Pose)
    (v0 : Visual) (hres : mlookup (visualsAfterMsgs s) X = some v0)
    (hlast : lastPoseMsg s.poseMsgs X = some P) :
    mlookup s.PreRender.visuals X = some { v0 with pose := P } := by
  rw [preRender_visuals_eq,
      poseFold_lookup_found s.poseMsgs (visualsAfterMsgs s) [] X v0 hres,
      lastFrom_of_lastPoseMsg s.poseMsgs X P hlast]

theorem preRender_pose_pending (s : Scene) (X : String)
    (hnone : mlookup (visualsAfterMsgs s) X = none) :
    lastPoseMsg s.PreRender.poseMsgs X = lastPoseMsg s.poseMsgs X := by
  rw [preRender_poseMsgs_eq, poseFold_kept, List.nil_append]
  apply lastPoseMsg_filter
  intro m hm
  rw [hm, hnone]
  rfl

theorem processVisualMsg_lookup_self (vm : List (String × Visual))
    (m : VisualMsg) (h : m.action ≠ some VisualAction.DELETE) :
    (mlookup (processVisualMsg vm m) m.id).isSome := by
  rw [processVisualMsg, if_neg h]
  cases hlk : mlookup vm m.id with
  | some v => simp [mlookup_minsert]
  | none => simp [mlookup_minsert]

theorem eraseFirstPose_filter_nil (l : List PoseMsg) (X : String)
    (h : (l.filter (fun m => m.id == X)).length ≤ 1) :
    (eraseFirstPose X l).filter (fun m => m.id == X) = [] := by
  induction l with
  | nil => rfl
  | cons m rest ih =>
    by_cases hm : m.id = X
    · rw [eraseFirstPose, if_pos hm]
      rw [List.filter_cons] at h
      simp only [hm, beq_self_eq_true, if_true, List.length_cons] at h
      exact List.length_eq_zero.mp (by omega)
    · rw [eraseFirstPose, if_neg hm]
      rw [List.filter_cons] at h
      have hbeq : (m.id == X) = false := by simp [hm]
      rw [hbeq, if_neg (by simp)] at h
      rw [List.filter_cons, hbeq, if_neg (by simp)]
      exact ih h

theorem eraseFirstPose_filter_other (l : List PoseMsg) (id X : String)
    (h : X ≠ id) :
    (eraseFirstPose id l).filter (fun m => m.id == X)
      = l.filter (fun m => m.id == X) := by
  induction l with
  | nil => rfl
  | cons m rest ih =>
    by_cases hm : m.id = id
    · rw [eraseFirstPose, if_pos hm, List.filter_cons]
      have hbeq : (m.id == X) = false := by simp [hm, Ne.symm h]
      rw [hbeq, if_neg (by simp)]
    · rw [eraseFirstPose, if_neg hm, List.filter_cons, List.filter_cons, ih]

theorem eraseFirstPose_append_last (l : List PoseMsg) (m : PoseMsg)
    (X : String) (hm : m.id = X)
    (h : l.filter (fun m2 => m2.id == X) = []) :
    eraseFirstPose X (l ++ [m]) = l := by
  induction l with
  | nil => simp [eraseFirstPose, hm]
  | cons m0 rest ih =>
    rw [List.filter_cons] at h
    by_cases h0 : m0.id = X
    · rw [if_pos (by simp [h0])] at h
      cases h
    · rw [if_neg (by simp [h0])] at h
      rw [List.cons_append, eraseFirstPose, if_neg h0, ih h]

/-! ### Claims -/

/-- Claim C1: a pose message for `X` that cannot be applied in a cycle
(because no visual `X` exists after the cycle's visual batch) survives the
cycle as the latest pending pose for `X`; and in any cycle in which a
visual for `X` does exist after the visual batch, the latest pending pose
for `X` is applied to `X`'s entity. -/
theorem pose_deferral (s : Scene) (X : String) (P : Pose)
    (hstage : lastPoseMsg s.poseMsgs X = some P) :
    (mlookup (visualsAfterMsgs s) X = none →
        lastPoseMsg s.PreRender.poseMsgs X = some P)
  ∧ (∀ v0, mlookup (visualsAfterMsgs s) X = some v0 →
        ∃ v, mlookup s.PreRender.visuals X = some v ∧ v.pose = P) := by
  constructor
  · intro hnone
    rw [preRender_pose_pending s X hnone]
    exact hstage
  · intro v0 hv0
    exact ⟨{ v0 with pose := P }, preRender_visual_pose s X P v0 hv0 hstage,
      rfl⟩

/-- Witness for C1, the spec's concrete scenario: a pose for `v2` received
before any visual for `v2` survives the first cycle, and once a visual for
`v2` is queued the next cycle applies the pose `5` to it. -/
theorem pose_deferral_witness :
    lastPoseMsg (((Scene.init.ReceivePoseMsg ⟨"v2", 5⟩).PreRender).ReceiveVisualMsg
        ⟨"v2", none, none, 7⟩).poseMsgs "v2" = some 5
  ∧ ∃ v, mlookup ((((Scene.init.ReceivePoseMsg ⟨"v2", 5⟩).PreRender).ReceiveVisualMsg
        ⟨"v2", none, none, 7⟩).PreRender).visuals "v2" = some v
      ∧ v.pose = 5 :=
  ⟨by decide,
   (pose_deferral
      (((Scene.init.ReceivePoseMsg ⟨"v2", 5⟩).PreRender).ReceiveVisualMsg
        ⟨"v2", none, none, 7⟩) "v2" 5 (by decide)).2
     ⟨"v2", none, 0, 7⟩ (by decide)⟩

/-- Claim C2: a reconciliation cycle is exactly the visual phase, then the
light phase, then the pose phase, then the selection phase, in that order;
consequently a visual-create for `X` and a pose for `X` drained in the same
cycle leave `X` registered with that pose applied. -/
theorem cycle_fixed_order :
    (∀ s : Scene,
        s.PreRender = selectionPhase (posePhase (lightPhase (visualPhase s))))
  ∧ (∀ (s : Scene) (X : String) (pid : Option String) (pl : Nat) (P : Pose),
        ∃ v, mlookup (((s.ReceiveVisualMsg ⟨X, pid, none, pl⟩).ReceivePoseMsg
            ⟨X, P⟩).PreRender).visuals X = some v ∧ v.pose = P) := by
  constructor
  · intro s
    cases hsel : s.selectionMsg <;>
      simp [Scene.PreRender, visualPhase, lightPhase, posePhase,
        selectionPhase, hsel]
  · intro s X pid pl P
    set s2 := (s.ReceiveVisualMsg ⟨X, pid, none, pl⟩).ReceivePoseMsg ⟨X, P⟩
      with hs2
    have hvm : visualsAfterMsgs s2
        = processVisualMsg (visualsAfterMsgs s) ⟨X, pid, none, pl⟩ := by
      rw [hs2]
      simp [visualsAfterMsgs, Scene.ReceiveVisualMsg, Scene.ReceivePoseMsg,
        List.foldl_append]
    have hres : (mlookup (visualsAfterMsgs s2) X).isSome := by
      rw [hvm]
      exact processVisualMsg_lookup_self (visualsAfterMsgs s)
        ⟨X, pid, none, pl⟩ (by simp)
    obtain ⟨v0, hv0⟩ := Option.isSome_iff_exists.mp hres
    have hlast : lastPoseMsg s2.poseMsgs X = some P := by
      rw [hs2]
      show lastPoseMsg (eraseFirstPose X (s.ReceiveVisualMsg
        ⟨X, pid, none, pl⟩).poseMsgs ++ [⟨X, P⟩]) X = some P
      rw [lastPoseMsg_append_single]
      simp
    exact ⟨{ v0 with pose := P }, preRender_visual_pose s2 X P v0 hv0 hlast,
      rfl⟩

/-- Claim C10: after a cycle the visual and light mailboxes are empty, the
pending selection message is reset, and the pose mailbox holds exactly
those of its previous messages whose target is not a registered visual, in
their original relative order. -/
theorem cycle_postcondition (s : Scene) :
    s.PreRender.visualMsgs = []
  ∧ s.PreRender.lightMsgs = []
  ∧ s.PreRender.selectionMsg = none
  ∧ s.PreRender.poseMsgs
      = s.poseMsgs.filter (fun m => (mlookup s.PreRender.visuals m.id).isNone) := by
  refine ⟨rfl, rfl, rfl, ?_⟩
  rw [preRender_poseMsgs_eq, poseFold_kept, List.nil_append]
  apply List.filter_congr
  intro m _
  rw [preRender_visuals_eq]
  exact (poseFold_lookup_isNone s.poseMsgs (visualsAfterMsgs s) [] m.id).symm

/-- Claim C3: with at most one pose for `X` already pending and `X` not yet
registered, staging two poses for `X` in one cycle leaves exactly the most
recently staged one pending; when `X` resolves during a cycle, that pose is
the one applied to `X`'s entity, and while `X` stays unresolved it remains
the pending pose. -/
theorem last_writer_wins (s : Scene) (X : String) (P1 P2 : Pose)
    (_hunres : mlookup s.visuals X = none)
    (hcount : (s.poseMsgs.filter (fun m => m.id == X)).length ≤ 1) :
    (((s.ReceivePoseMsg ⟨X, P1⟩).ReceivePoseMsg ⟨X, P2⟩).poseMsgs.filter
        (fun m => m.id == X) = [⟨X, P2⟩])
  ∧ (∀ v0,
      mlookup (visualsAfterMsgs
          ((s.ReceivePoseMsg ⟨X, P1⟩).ReceivePoseMsg ⟨X, P2⟩)) X = some v0 →
      ∃ v, mlookup
          ((s.ReceivePoseMsg ⟨X, P1⟩).ReceivePoseMsg ⟨X, P2⟩).PreRender.visuals
          X = some v ∧ v.pose = P2)
  ∧ (mlookup (visualsAfterMsgs
          ((s.ReceivePoseMsg ⟨X, P1⟩).ReceivePoseMsg ⟨X, P2⟩)) X = none →
      lastPoseMsg
          ((s.ReceivePoseMsg ⟨X, P1⟩).ReceivePoseMsg ⟨X, P2⟩).PreRender.poseMsgs
          X = some P2) := by
  have hmsgs : ((s.ReceivePoseMsg ⟨X, P1⟩).ReceivePoseMsg ⟨X, P2⟩).poseMsgs
      = eraseFirstPose X s.poseMsgs ++ [⟨X, P2⟩] := by
    show eraseFirstPose X (eraseFirstPose X s.poseMsgs ++ [⟨X, P1⟩]) ++ [⟨X, P2⟩]
       = eraseFirstPose X s.poseMsgs ++ [⟨X, P2⟩]
    rw [eraseFirstPose_append_last (eraseFirstPose X s.poseMsgs) ⟨X, P1⟩ X rfl
        (eraseFirstPose_filter_nil s.poseMsgs X hcount)]
  have hlast : lastPoseMsg
      ((s.ReceivePoseMsg ⟨X, P1⟩).ReceivePoseMsg ⟨X, P2⟩).poseMsgs X
        = some P2 := by
    rw [hmsgs, lastPoseMsg_append_single]
    simp
  refine ⟨?_, ?_, ?_⟩
  · rw [hmsgs, List.filter_append,
      eraseFirstPose_filter_nil s.poseMsgs X hcount]
    simp
  · intro v0 hv0
    exact ⟨_, preRender_visual_pose _ X P2 v0 hv0 hlast, rfl⟩
  · intro hnone
    rw [preRender_pose_pending _ X hnone]
    exact hlast

/-- Witness for C3: from a scene with one visual message for `a` queued,
staging pose `1` then pose `2` for `a` leaves exactly pose `2` pending, and
the cycle applies pose `2` to the newly created visual. -/
theorem last_writer_wins_witness :
    (((Scene.init.ReceiveVisualMsg ⟨"a", none, none, 7⟩).ReceivePoseMsg
        ⟨"a", 1⟩).ReceivePoseMsg ⟨"a", 2⟩).poseMsgs.filter
      (fun m => m.id == "a") = [⟨"a", 2⟩]
  ∧ ∃ v, mlookup ((((Scene.init.ReceiveVisualMsg
        ⟨"a", none, none, 7⟩).ReceivePoseMsg
        ⟨"a", 1⟩).ReceivePoseMsg ⟨"a", 2⟩).PreRender).visuals "a" = some v
      ∧ v.pose = 2 :=
  ⟨(last_writer_wins (Scene.init.ReceiveVisualMsg ⟨"a", none, none, 7⟩)
      "a" 1 2 (by decide) (by decide)).1,
   (last_writer_wins (Scene.init.ReceiveVisualMsg ⟨"a", none, none, 7⟩)
      "a" 1 2 (by decide) (by decide)).2.1 ⟨"a", none, 0, 7⟩ (by decide)⟩

theorem wfMap_processVisualMsg (vm : List (String × Visual)) (m : VisualMsg)
    (hwf : wfMap vm) : wfMap (processVisualMsg vm m) := by
  rw [processVisualMsg]
  by_cases h : m.action = some VisualAction.DELETE
  · rw [if_pos h]
    exact wfMap_merase vm m.id hwf
  · rw [if_neg h]
    cases hlk : mlookup vm m.id with
    | some v => exact wfMap_minsert vm m.id (updateFromMsg v m) hwf
    | none => exact wfMap_minsert vm m.id _ hwf

/-- Claim C5: a cycle whose visual batch is exactly create(`X`),
update(`X`), delete(`X`) applied in FIFO arrival order leaves `X` absent
from the visual registry. -/
theorem create_update_delete (s : Scene) (X : String)
    (pid1 pid2 pid3 : Option String) (pl1 pl2 pl3 : Nat)
    (hwf : wfMap s.visuals) :
    mlookup (Scene.PreRender { s with visualMsgs :=
        [⟨X, pid1, none, pl1⟩, ⟨X, pid2, none, pl2⟩,
         ⟨X, pid3, some VisualAction.DELETE, pl3⟩] }).visuals X = none := by
  have hvm : visualsAfterMsgs { s with visualMsgs :=
        [⟨X, pid1, none, pl1⟩, ⟨X, pid2, none, pl2⟩,
         ⟨X, pid3, some VisualAction.DELETE, pl3⟩] }
      = merase (processVisualMsg
          (processVisualMsg s.visuals ⟨X, pid1, none, pl1⟩)
          ⟨X, pid2, none, pl2⟩) X := by
    show processVisualMsg (processVisualMsg
          (processVisualMsg s.visuals ⟨X, pid1, none, pl1⟩)
          ⟨X, pid2, none, pl2⟩) ⟨X, pid3, some VisualAction.DELETE, pl3⟩ = _
    rw [processVisualMsg, if_pos rfl]
  have hwf2 : wfMap (processVisualMsg
      (processVisualMsg s.visuals ⟨X, pid1, none, pl1⟩)
      ⟨X, pid2, none, pl2⟩) :=
    wfMap_processVisualMsg _ _ (wfMap_processVisualMsg _ _ hwf)
  have hnone : mlookup (visualsAfterMsgs { s with visualMsgs :=
        [⟨X, pid1, none, pl1⟩, ⟨X, pid2, none, pl2⟩,
         ⟨X, pid3, some VisualAction.DELETE, pl3⟩] }) X = none := by
    rw [hvm]
    exact mlookup_merase_self _ X hwf2
  rw [preRender_visuals_eq]
  have h := poseFold_lookup_isNone (Scene.poseMsgs { s with visualMsgs :=
        [⟨X, pid1, none, pl1⟩, ⟨X, pid2, none, pl2⟩,
         ⟨X, pid3, some VisualAction.DELETE, pl3⟩] })
      (visualsAfterMsgs { s with visualMsgs :=
        [⟨X, pid1, none, pl1⟩, ⟨X, pid2, none, pl2⟩,
         ⟨X, pid3, some VisualAction.DELETE, pl3⟩] }) [] X
  rw [hnone] at h
  exact Option.isNone_iff_eq_none.mp h

/-- Witness for C5: on an empty scene the batch create(`v1`), update(`v1`),
delete(`v1`) leaves `v1` unregistered after the cycle. -/
theorem create_update_delete_witness :
    wfMap (Scene.init).visuals
  ∧ mlookup (Scene.PreRender { Scene.init with visualMsgs :=
        [⟨"v1", none, none, 1⟩, ⟨"v1", none, none, 2⟩,
         ⟨"v1", none, some VisualAction.DELETE, 2⟩] }).visuals "v1" = none :=
  ⟨by simp [wfMap, Scene.init],
   create_update_delete Scene.init "v1" none none none 1 2 2
     (by simp [wfMap, Scene.init])⟩

/-- Claim C6: a cycle with a pending selection message resolves it against
the visual registry: when the identifier is registered that entity becomes
the selection, otherwise the selection is cleared to none (never left at a
stale previous value); the pending selection message is reset either
way. -/
theorem selection_resolves_or_clears (s : Scene) (m : SelectionMsg) :
    ((s.OnSelectionMsg m).PreRender.selection
      = if (mlookup (visualsAfterMsgs s) m.id).isSome then some m.id
        else none)
  ∧ (s.OnSelectionMsg m).PreRender.selectionMsg = none := by
  constructor
  · have hsel : (s.OnSelectionMsg m).PreRender.selection
        = (if (mlookup ((s.OnSelectionMsg m).poseMsgs.foldl poseStep
            (visualsAfterMsgs (s.OnSelectionMsg m), [])).1 m.id).isSome
           then some m.id else none) := rfl
    have h1 : visualsAfterMsgs (s.OnSelectionMsg m) = visualsAfterMsgs s :=
      rfl
    have h2 : (s.OnSelectionMsg m).poseMsgs = s.poseMsgs := rfl
    rw [hsel, h1, h2, poseFold_lookup_isSome]
  · rfl

/-- Counterexample to C7: the light registry holds `l1` with payload `1`;
processing a light message for `l1` carrying payload `2` leaves the stored
payload at `1` — the message payload is not merged into the entity. -/
theorem light_update_counterexample :
    mlookup (processLightMsg [("l1", ⟨1⟩)] ⟨"l1", 2⟩) "l1" = some ⟨1⟩
  ∧ ¬ mlookup (processLightMsg [("l1", ⟨1⟩)] ⟨"l1", 2⟩) "l1" = some ⟨2⟩ := by
  constructor <;> decide

/-- Claim C7 as amended: a light message whose identifier is already
registered leaves the light registry entirely unchanged — a silent no-op,
not an error and not an update of the stored payload. -/
theorem light_existing_noop (lm : List (String × Light)) (m : LightMsg)
    (L : Light) (h : mlookup lm m.id = some L) :
    processLightMsg lm m = lm := by
  simp [processLightMsg, h]

/-- Witness for the amended C7: a message for the registered light `l1` is
a no-op on the registry. -/
theorem light_existing_noop_witness :
    mlookup [("l1", (⟨1⟩ : Light))] (LightMsg.mk "l1" 2).id = some ⟨1⟩
  ∧ processLightMsg [("l1", ⟨1⟩)] ⟨"l1", 2⟩ = [("l1", ⟨1⟩)] :=
  ⟨by decide, light_existing_noop [("l1", ⟨1⟩)] ⟨"l1", 2⟩ ⟨1⟩ (by decide)⟩

/-- Claim C8: deleting an absent visual identifier leaves the registry
unchanged, and applying the same delete message twice has the same effect
as applying it once. -/
theorem delete_idempotent (vm : List (String × Visual)) (X : String)
    (pid : Option String) (pl : Nat) (hwf : wfMap vm) :
    (mlookup vm X = none →
        processVisualMsg vm ⟨X, pid, some VisualAction.DELETE, pl⟩ = vm)
  ∧ processVisualMsg
        (processVisualMsg vm ⟨X, pid, some VisualAction.DELETE, pl⟩)
        ⟨X, pid, some VisualAction.DELETE, pl⟩
      = processVisualMsg vm ⟨X, pid, some VisualAction.DELETE, pl⟩ := by
  have hd : ∀ w : List (String × Visual),
      processVisualMsg w ⟨X, pid, some VisualAction.DELETE, pl⟩
        = merase w X := by
    intro w
    rw [processVisualMsg, if_pos rfl]
  refine ⟨fun hnone => ?_, ?_⟩
  · rw [hd]
    exact merase_of_not_found vm X hnone
  · simp only [hd]
    exact merase_of_not_found (merase vm X) X (mlookup_merase_self vm X hwf)

/-- Witness for C8: deleting the absent identifier `a` from a registry
holding only `b` changes nothing, and deleting twice equals deleting
once. -/
theorem delete_idempotent_witness :
    mlookup [("b", (⟨"b", none, 0, 0⟩ : Visual))] "a" = none
  ∧ processVisualMsg [("b", ⟨"b", none, 0, 0⟩)]
        ⟨"a", none, some VisualAction.DELETE, 0⟩
      = [("b", ⟨"b", none, 0, 0⟩)]
  ∧ processVisualMsg (processVisualMsg [("b", ⟨"b", none, 0, 0⟩)]
        ⟨"a", none, some VisualAction.DELETE, 0⟩)
        ⟨"a", none, some VisualAction.DELETE, 0⟩
      = processVisualMsg [("b", ⟨"b", none, 0, 0⟩)]
        ⟨"a", none, some VisualAction.DELETE, 0⟩ :=
  ⟨by decide,
   (delete_idempotent [("b", ⟨"b", none, 0, 0⟩)] "a" none 0
      (by simp [wfMap])).1 (by decide),
   (delete_idempotent [("b", ⟨"b", none, 0, 0⟩)] "a" none 0
      (by simp [wfMap])).2⟩

theorem receivePose_atMostOne (s : Scene) (m : PoseMsg)
    (h : atMostOnePendingPose s.poseMsgs) :
    atMostOnePendingPose (s.ReceivePoseMsg m).poseMsgs := by
  intro X
  show ((eraseFirstPose m.id s.poseMsgs ++ [m]).filter
      (fun m2 => m2.id == X)).length ≤ 1
  rw [List.filter_append]
  by_cases hX : X = m.id
  · subst hX
    rw [eraseFirstPose_filter_nil s.poseMsgs m.id (h m.id)]
    simp
  · rw [eraseFirstPose_filter_other s.poseMsgs m.id X hX]
    have hbeq : (m.id == X) = false :=
      beq_eq_false_iff_ne.mpr (fun hh => hX hh.symm)
    rw [List.filter_cons, hbeq, if_neg (by simp), List.filter_nil,
        List.append_nil]
    exact h X

/-- Counterexample to C4: after a pose for `a` is received and then a scene
message embedding another pose for `a`, the pending-pose buffer holds two
entries for `a` — `ReceiveSceneMsg` appends embedded poses without the
dedup scan of `ReceivePoseMsg`. -/
theorem pending_pose_dedup_counterexample :
    ¬ atMostOnePendingPose
      (((Scene.init.ReceivePoseMsg ⟨"a", 1⟩).ReceiveSceneMsg
        ⟨[], [⟨"a", 2⟩], [], none⟩).poseMsgs) := by
  intro h
  exact absurd (h "a") (by decide)

/-- Claim C4 as amended: the at-most-one-pending-pose-per-identifier
invariant is preserved by any sequence of receive operations containing no
scene message; a scene message appends its embedded pose entries without
deduplication and can violate it. -/
theorem pending_pose_dedup_amended (ops : List ReceiveOp) (s : Scene)
    (hscene : ∀ op ∈ ops, op.isScene = false)
    (h : atMostOnePendingPose s.poseMsgs) :
    atMostOnePendingPose (ops.foldl applyReceiveOp s).poseMsgs := by
  induction ops generalizing s with
  | nil => exact h
  | cons op ops ih =>
    rw [List.foldl_cons]
    refine ih (applyReceiveOp s op)
      (fun o ho => hscene o (List.mem_cons_of_mem _ ho)) ?_
    cases op with
    | visual m => exact h
    | light m => exact h
    | select m => exact h
    | pose m => exact receivePose_atMostOne s m h
    | scene m =>
      have hfalse := hscene _ (List.mem_cons_self _ _)
      simp [ReceiveOp.isScene] at hfalse

/-- Witness for the amended C4: a receive sequence with repeated poses for
`a` but no scene message keeps at most one pending pose per identifier. -/
theorem pending_pose_dedup_amended_witness :
    (∀ op ∈ [ReceiveOp.pose ⟨"a", 1⟩, ReceiveOp.pose ⟨"a", 2⟩,
        ReceiveOp.visual ⟨"v", none, none, 0⟩, ReceiveOp.pose ⟨"b", 3⟩],
      op.isScene = false)
  ∧ atMostOnePendingPose
      (([ReceiveOp.pose ⟨"a", 1⟩, ReceiveOp.pose ⟨"a", 2⟩,
        ReceiveOp.visual ⟨"v", none, none, 0⟩,
        ReceiveOp.pose ⟨"b", 3⟩].foldl applyReceiveOp Scene.init)).poseMsgs :=
  ⟨by decide,
   pending_pose_dedup_amended _ Scene.init (by decide)
     (fun X => by simp [Scene.init])⟩

theorem preRenderBody_isApply (s : Scene) (e : SceneEvent)
    (he : e ∈ preRenderBody s) : e.isApply = true := by
  simp only [preRenderBody, List.mem_append, List.mem_map] at he
  rcases he with ((⟨_, _, rfl⟩ | ⟨_, _, rfl⟩) | ⟨_, _, rfl⟩) | he
  · rfl
  · rfl
  · rfl
  · cases hsel : s.selectionMsg with
    | some m =>
      rw [hsel] at he
      simp only [List.mem_singleton] at he
      rw [he]
      rfl
    | none =>
      rw [hsel] at he
      simp at he

/-- Counterexample to C9: in a cycle with one queued visual message, the
`ProcessVisualMsg` application event runs at `receiveMutex` depth 1 —
`PreRender` holds the producers' mutex for the whole apply phase, so the
apply phase does not run outside every producer-visible lock. -/
theorem apply_outside_lock_counterexample :
    ¬ (∀ i, i < (preRenderEvents (Scene.init.ReceiveVisualMsg
          ⟨"a", none, none, 0⟩)).length →
        ((preRenderEvents (Scene.init.ReceiveVisualMsg
          ⟨"a", none, none, 0⟩)).getD i
            SceneEvent.lockReceiveMutex).isApply = true →
        lockDepthBefore (preRenderEvents (Scene.init.ReceiveVisualMsg
          ⟨"a", none, none, 0⟩)) i = 0) := by
  intro h
  exact absurd (h 1 (by decide) (by decide)) (by decide)

/-- Claim C9 as amended: every message-application event of a cycle runs
with `receiveMutex` — the very lock producers take to enqueue — held at
depth exactly 1, not outside any producer-visible lock. -/
theorem apply_under_lock (s : Scene) (i : Nat)
    (hi : i < (preRenderEvents s).length)
    (happ : ((preRenderEvents s).getD i
        SceneEvent.lockReceiveMutex).isApply = true) :
    lockDepthBefore (preRenderEvents s) i = 1 := by
  cases i with
  | zero =>
    rw [preRenderEvents, List.getD_cons_zero] at happ
    exact absurd happ (by decide)
  | succ j =>
    rw [preRenderEvents, List.getD_cons_succ] at happ
    have hlen : (preRenderEvents s).length = (preRenderBody s).length + 2 := by
      simp [preRenderEvents]
    have hjb : j < (preRenderBody s).length := by
      rcases Nat.lt_or_ge j (preRenderBody s).length with hlt | hge
      · exact hlt
      · exfalso
        have hj : j = (preRenderBody s).length := by
          rw [hlen] at hi
          omega
        rw [List.getD_append_right _ _ _ _ hge, hj, Nat.sub_self,
            List.getD_cons_zero] at happ
        exact absurd happ (by decide)
    have hsub : ∀ e ∈ (preRenderBody s).take j, e.isApply = true :=
      fun e he => preRenderBody_isApply s e (List.mem_of_mem_take he)
    have hc1 : ((preRenderBody s).take j).countP SceneEvent.isLock = 0 :=
      List.countP_eq_zero.mpr (fun e he => by
        have happly := hsub e he
        cases e <;> simp_all [SceneEvent.isApply, SceneEvent.isLock])
    have hc2 : ((preRenderBody s).take j).countP SceneEvent.isUnlock = 0 :=
      List.countP_eq_zero.mpr (fun e he => by
        have happly := hsub e he
        cases e <;> simp_all [SceneEvent.isApply, SceneEvent.isUnlock])
    rw [lockDepthBefore, preRenderEvents, List.take_succ_cons,
        List.take_append_of_le_length (le_of_lt hjb),
        List.countP_cons_of_pos SceneEvent.isLock _ (by rfl),
        List.countP_cons_of_neg SceneEvent.isUnlock _ (by simp
          [SceneEvent.isUnlock]),
        hc1, hc2]
    rfl

/-- Witness for the amended C9: with one visual message queued, the
`ProcessVisualMsg` event at position 1 of the trace runs at lock
depth 1. -/
theorem apply_under_lock_witness :
    1 < (preRenderEvents (Scene.init.ReceiveVisualMsg
        ⟨"a", none, none, 0⟩)).length
  ∧ ((preRenderEvents (Scene.init.ReceiveVisualMsg
        ⟨"a", none, none, 0⟩)).getD 1
          SceneEvent.lockReceiveMutex).isApply = true
  ∧ lockDepthBefore (preRenderEvents (Scene.init.ReceiveVisualMsg
        ⟨"a", none, none, 0⟩)) 1 = 1 :=
  ⟨by decide, by decide,
   apply_under_lock (Scene.init.ReceiveVisualMsg ⟨"a", none, none, 0⟩) 1
     (by decide) (by decide)⟩

end Gazebo
